import Mathlib

/-!
Formal model of the text-patching and annotation engine of the IELTS
writing helper (src/app/page.tsx).  Documents are modelled as `List Char`
(JavaScript strings are code-unit sequences; the alphabet is irrelevant
to the logic).  The JavaScript string operations used by the source —
`includes`, `replace` (string pattern, string replacement, including the
dollar substitution patterns of GetSubstitution), `split`, `slice` — are
embedded as executable Lean functions, and the React component state and
its event handlers (`updateEssay`, `applyFix`, `handleUndo`, `handleRedo`,
`handleAnalyze`, `renderAnnotatedEssay`, the `isApplied` computation) are
embedded as pure state-transition functions.
-/

namespace IWH

/-- Convert a Lean string literal to the `List Char` document representation. -/
def strL (s : String) : List Char := s.data

/-- Does `t` occur at the head of `s`?  (Prefix test used by the scanning
functions below; mirrors the position-0 comparison of a JS substring search.) -/
def leadsWith : List Char → List Char → Bool
  | [], _ => true
  | _ :: _, [] => false
  | a :: t, b :: s => a = b && leadsWith t s

/-- Leftmost-occurrence search: `findSplit t s = some (pre, post)` when `t`
first occurs in `s` after prefix `pre`, with `post` the remainder after the
match; `none` when `t` does not occur.  This is the search underlying JS
`String.prototype.includes` and the string form of `String.prototype.replace`.
An empty `t` matches at position 0, as in JS. -/
def findSplit (t : List Char) : List Char → Option (List Char × List Char)
  | [] => if leadsWith t [] then some ([], []) else none
  | c :: rest =>
    if leadsWith t (c :: rest) then some ([], (c :: rest).drop t.length)
    else
      match findSplit t rest with
      | some (pre, post) => some (c :: pre, post)
      | none => none

/-- JS `s.includes(t)`. -/
def jsIncludes (s t : List Char) : Bool := (findSplit t s).isSome

def dollarChar : Char := '$'
def ampChar : Char := '&'
def backtickChar : Char := Char.ofNat 96
def quoteChar : Char := Char.ofNat 39

/-- ECMAScript GetSubstitution for a string (non-regexp) pattern: expand the
replacement text, where `$$` yields a dollar, `$&` the matched text, a dollar
followed by the backquote character the text before the match, and a dollar
followed by the apostrophe character the text after the match.  There are no
capture groups for a string pattern, so `$n` passes through literally, as
does any other unrecognized dollar sequence. -/
def getSubstitution (matched before after : List Char) : List Char → List Char
  | [] => []
  | c :: rest =>
    if c = dollarChar then
      match rest with
      | [] => [c]
      | d :: rest2 =>
        if d = dollarChar then d :: getSubstitution matched before after rest2
        else if d = ampChar then matched ++ getSubstitution matched before after rest2
        else if d = backtickChar then before ++ getSubstitution matched before after rest2
        else if d = quoteChar then after ++ getSubstitution matched before after rest2
        else c :: d :: getSubstitution matched before after rest2
    else c :: getSubstitution matched before after rest

/-- JS `s.replace(target, repl)` with a string pattern: replace the first
occurrence of `target` with the GetSubstitution expansion of `repl`; return
`s` unchanged when `target` does not occur. -/
def jsReplace (target repl s : List Char) : List Char :=
  match findSplit target s with
  | none => s
  | some (pre, post) => pre ++ getSubstitution target pre post repl ++ post

/-- Splitting on a non-empty separator: leftmost-first, non-overlapping,
keeping empty pieces, as JS `split` does.  (The empty-separator case is
handled by `jsSplit`; the guard here only keeps the function total.) -/
def splitNE (sep : List Char) (s : List Char) : List (List Char) :=
  if hsep : sep.isEmpty then [s]
  else
    match s with
    | [] => [[]]
    | c :: rest =>
      if leadsWith sep (c :: rest) then
        [] :: splitNE sep ((c :: rest).drop sep.length)
      else
        match splitNE sep rest with
        | [] => [[c]]
        | p :: ps => (c :: p) :: ps
  termination_by s.length
  decreasing_by
    · simp only [List.length_drop, List.length_cons]
      have : sep.length ≠ 0 := by
        simpa [List.isEmpty_iff, List.length_eq_zero] using hsep
      omega
    · simp

/-- JS `s.split(sep)` (no limit argument): an empty separator splits into
single code units; otherwise split on each occurrence of `sep`. -/
def jsSplit (sep s : List Char) : List (List Char) :=
  if sep.isEmpty then s.map (fun c => [c]) else splitNE sep s

/-- Rejoin split pieces with the separator between them (the inverse
direction of `jsSplit` on a non-empty separator). -/
def joinParts (sep : List Char) : List (List Char) → List Char
  | [] => []
  | [p] => p
  | p :: ps => p ++ sep ++ joinParts sep ps

/-- JS `l.slice(0, e)`: a negative end index counts from the end of the
array, and the result is clamped to the array bounds. -/
def jsSliceTo (l : List (List Char)) (e : Int) : List (List Char) :=
  if e < 0 then l.take (l.length + e).toNat else l.take e.toNat

/-- JS truthiness of an optional string field (`null`/`undefined`/empty are
falsy). -/
def truthyStr : Option (List Char) → Bool
  | none => false
  | some s => !s.isEmpty

/-- Whitespace recognized by JS `String.prototype.trim` (ASCII part plus
no-break space; the further exotic Unicode space code points do not affect
any of the properties below). -/
def isJsWhitespace (c : Char) : Bool :=
  c = ' ' || c = '\t' || c = '\n' || c = '\r' ||
  c = Char.ofNat 11 || c = Char.ofNat 12 || c = Char.ofNat 0xa0

/-- JS `s.trim()`. -/
def jsTrim (s : List Char) : List Char :=
  ((s.dropWhile isJsWhitespace).reverse.dropWhile isJsWhitespace).reverse

/-- `interface Correction` of src/app/page.tsx. -/
structure Correction where
  original : List Char
  replacement : List Char
  type : List Char
  explanation : List Char
deriving DecidableEq

/-- The `"high" | "medium" | "low"` union of `PrioritizedSuggestion.priority`. -/
inductive Priority | high | medium | low
deriving DecidableEq

/-- `interface PrioritizedSuggestion`; `string | null | undefined` fields
become `Option (List Char)` (with `none` for both null and undefined, which
the component only ever distinguishes by truthiness). -/
structure PrioritizedSuggestion where
  priority : Priority
  issue : List Char
  suggestion : List Char
  example_fix : Option (List Char)
  apply_to_text : Option (List Char)
  replacement_text : Option (List Char)
  category : List Char
deriving DecidableEq

/-- `interface VocabularyEnrichment`. -/
structure VocabularyEnrichment where
  word : List Char
  phonetic : List Char
  type : List Char
  definition : List Char
  example_sentence : List Char
  context_in_essay : List Char
  target_text : Option (List Char)
  replacement_text : Option (List Char)
deriving DecidableEq

/-- `interface Tip`. -/
structure Tip where
  tip : List Char
  example_implementation : Option (List Char)
  apply_to_text : Option (List Char)
  replacement_text : Option (List Char)
deriving DecidableEq

/-- `interface FeedbackDetail`. -/
structure FeedbackDetail where
  summary : List Char
  tips : List Tip
deriving DecidableEq

/-- The nested `feedback` object of `FeedbackData`. -/
structure FeedbackBlock where
  task_achievement : FeedbackDetail
  coherence_cohesion : FeedbackDetail
  lexical_resource : FeedbackDetail
  grammatical_range_accuracy : FeedbackDetail
deriving DecidableEq

/-- `interface FeedbackData`.  `band_score` is a JS number; no property below
depends on it, so it is embedded as an integer. -/
structure FeedbackData where
  band_score : Int
  prioritized_suggestions : List PrioritizedSuggestion
  enrichment : Option (List VocabularyEnrichment)
  feedback : FeedbackBlock
  corrections : List Correction
  general_comment : List Char
deriving DecidableEq

inductive TaskType | task1 | task2
deriving DecidableEq

inductive ViewMode | edit | review
deriving DecidableEq

/-- Keys of `FeedbackData.feedback` (the `selectedCriterion` values). -/
inductive CriterionKey
  | task_achievement | coherence_cohesion | lexical_resource | grammatical_range_accuracy
deriving DecidableEq

/-- The React component state of `Home` (src/app/page.tsx).  The tooltip
coordinates and the DOM ref are rendering-only and carry no document or
history information, so they are not part of the model. -/
structure State where
  essay : List Char
  history : List (List Char)
  historyIndex : Int
  taskType : TaskType
  loading : Bool
  result : Option FeedbackData
  error : List Char
  selectedCriterion : Option CriterionKey
  viewMode : ViewMode
  lastModifiedText : Option (List Char)
deriving DecidableEq

/-- The `useState` initial values: empty essay, empty history, cursor −1. -/
def initialState : State where
  essay := []
  history := []
  historyIndex := -1
  taskType := TaskType.task2
  loading := false
  result := none
  error := []
  selectedCriterion := none
  viewMode := ViewMode.edit
  lastModifiedText := none

/-- The mount-time history-initialization effect (page.tsx lines 83–88):
seed the history with the current essay only when the history is empty and
the essay is truthy (non-empty). -/
def initHistoryEffect (s : State) : State :=
  if s.history.isEmpty && !s.essay.isEmpty then
    { s with history := [s.essay], historyIndex := 0 }
  else s

/-- `updateEssay` (page.tsx lines 105–114): truncate the history after the
cursor (`history.slice(0, historyIndex + 1)`), append the new text, move the
cursor to the new last entry, and record `sourceReplacement` as the
last-changed highlight only when it is truthy. -/
def updateEssay (newEssay : List Char) (sourceReplacement : Option (List Char)) (s : State) : State :=
  let newHistory := jsSliceTo s.history (s.historyIndex + 1) ++ [newEssay]
  { s with
    essay := newEssay
    history := newHistory
    historyIndex := (newHistory.length : Int) - 1
    lastModifiedText :=
      if truthyStr sourceReplacement then sourceReplacement else s.lastModifiedText }

/-- `applyFix` (page.tsx lines 116–126): first-occurrence `String.replace`,
then `updateEssay` — with the replacement as the highlight value unless the
shift key suppresses it — then switch to review mode and close any open
criterion modal. -/
def applyFix (original replacement : List Char) (shiftKey : Bool) (s : State) : State :=
  let newEssay := jsReplace original replacement s.essay
  let s1 := if shiftKey then updateEssay newEssay none s
            else updateEssay newEssay (some replacement) s
  let s2 := { s1 with viewMode := ViewMode.review }
  if s2.selectedCriterion.isSome then { s2 with selectedCriterion := none } else s2

/-- `handleUndo` (page.tsx lines 128–133). -/
def handleUndo (s : State) : State :=
  if 0 < s.historyIndex then
    { s with
      historyIndex := s.historyIndex - 1
      essay := s.history.getD (s.historyIndex - 1).toNat [] }
  else s

/-- `handleRedo` (page.tsx lines 135–140). -/
def handleRedo (s : State) : State :=
  if s.historyIndex < (s.history.length : Int) - 1 then
    { s with
      historyIndex := s.historyIndex + 1
      essay := s.history.getD (s.historyIndex + 1).toNat [] }
  else s

def errEnterEssay : List Char := strL "Please enter your essay."
def errGeneric : List Char := strL "Something went wrong. Please try again."

/-- Outcome of the single in-flight analysis request: a parsed successful
response body, or a failure (network error or non-ok status). -/
inductive FetchOutcome
  | success (data : FeedbackData)
  | failure
deriving DecidableEq

/-- `handleAnalyze` (page.tsx lines 159–188) as a state transition
parameterized by the request outcome: reject a whitespace-only essay with an
inline message and no request; otherwise clear the error, set `loading`,
clear the result, and then either install the response and switch to review
mode, or set the generic error message; `loading` is cleared in `finally`
on both paths. -/
def handleAnalyze (outcome : FetchOutcome) (s : State) : State :=
  if (jsTrim s.essay).isEmpty then { s with error := errEnterEssay }
  else
    let s1 := { s with error := [], loading := true, result := none }
    match outcome with
    | FetchOutcome.success d =>
        { s1 with result := some d, viewMode := ViewMode.review, loading := false }
    | FetchOutcome.failure =>
        { s1 with error := errGeneric, loading := false }

/-- The `isApplied` computation used for prioritized suggestions, enrichment
items and tips (page.tsx lines 466, 534, 654):
`item.apply_to_text && !essay.includes(item.apply_to_text)` as a boolean. -/
def isAppliedB (essay : List Char) (target : Option (List Char)) : Bool :=
  match target with
  | none => false
  | some t => !t.isEmpty && !(jsIncludes essay t)

/-- The guard under which an apply action is rendered at all
(page.tsx lines 491, 535, 669): both the target and the replacement field
must be truthy. -/
def applyOffered (target repl : Option (List Char)) : Bool :=
  truthyStr target && truthyStr repl

/-- The three applicability states of the spec. -/
inductive Applicability | openSuggestion | resolved | informational
deriving DecidableEq

/-- The applicability classification realized by the component UI: an item
is shown `resolved` ("Applied") exactly when its `isApplied` flag is true,
it is an enabled apply action ("open") when the action is offered and not
applied, and it is informational otherwise. -/
def classify (essay : List Char) (target repl : Option (List Char)) : Applicability :=
  if isAppliedB essay target then Applicability.resolved
  else if applyOffered target repl then Applicability.openSuggestion
  else Applicability.informational

/-- A run of `renderAnnotatedEssay`'s output: a plain text segment, a
clickable correction highlight (the span holds `correction.original` and
carries the correction as its interaction metadata), or a transient
last-changed highlight (the span holds the last-modified text). -/
inductive Run
  | plain (text : List Char)
  | corrHighlight (text : List Char) (c : Correction)
  | changedHighlight (text : List Char)
deriving DecidableEq

/-- The text content of a run. -/
def runText : Run → List Char
  | Run.plain s => s
  | Run.corrHighlight t _ => t
  | Run.changedHighlight t => t

/-- Concatenated text of a run sequence. -/
def runsText : List Run → List Char
  | [] => []
  | r :: rs => runText r ++ runsText rs

def flatMapRuns (f : Run → List Run) : List Run → List Run
  | [] => []
  | seg :: rest => f seg ++ flatMapRuns f rest

/-- Interleave split parts with a highlight run between consecutive parts
(the `parts.forEach` push pattern of page.tsx lines 210–232 and 251–264). -/
def interleave (hl : Run) : List (List Char) → List Run
  | [] => []
  | [p] => [Run.plain p]
  | p :: ps => Run.plain p :: hl :: interleave hl ps

/-- One correction pass of `renderAnnotatedEssay` (page.tsx lines 203–241):
split every plain segment on `c.original` and, when it occurred, interleave
the parts with correction-highlight runs; leave non-plain segments alone. -/
def annotateCorr (c : Correction) (segs : List Run) : List Run :=
  flatMapRuns
    (fun seg =>
      match seg with
      | Run.plain s =>
        let parts := jsSplit c.original s
        if 1 < parts.length then interleave (Run.corrHighlight c.original c) parts
        else [Run.plain s]
      | other => [other])
    segs

/-- The last-changed pass of `renderAnnotatedEssay` (page.tsx lines
246–270): split plain segments containing the last-modified text and
interleave with changed-highlight runs. -/
def annotateChanged (t : List Char) (segs : List Run) : List Run :=
  flatMapRuns
    (fun seg =>
      match seg with
      | Run.plain s =>
        if jsIncludes s t then interleave (Run.changedHighlight t) (jsSplit t s)
        else [Run.plain s]
      | other => [other])
    segs

/-- `renderAnnotatedEssay` (page.tsx lines 195–273): without a result the
raw essay is returned; otherwise start from the whole essay as one plain
segment, run one pass per correction in analysis order, then highlight the
last-modified text if it is set. -/
def renderAnnotatedEssay (essay : List Char) (result : Option FeedbackData)
    (lastModifiedText : Option (List Char)) : List Run :=
  match result with
  | none => [Run.plain essay]
  | some r =>
    let afterCorr := r.corrections.foldl (fun acc c => annotateCorr c acc) [Run.plain essay]
    if truthyStr lastModifiedText then
      annotateChanged (lastModifiedText.getD []) afterCorr
    else afterCorr

/-- Document-store operations of the spec: `setText` (a textarea edit routed
through `updateEssay` with no source replacement), `undo`, `redo`. -/
inductive HistOp
  | set (t : List Char)
  | undo
  | redo
deriving DecidableEq

/-- Run one document-store operation. -/
def runOp (op : HistOp) (s : State) : State :=
  match op with
  | HistOp.set t => updateEssay t none s
  | HistOp.undo => handleUndo s
  | HistOp.redo => handleRedo s

/-- Run a sequence of document-store operations, left to right. -/
def runOps (ops : List HistOp) (s : State) : State :=
  ops.foldl (fun s op => runOp op s) s

/-- The history-consistency invariant: the cursor is a valid index into the
history sequence and the current text is the snapshot at the cursor. -/
def HistInv (s : State) : Prop :=
  0 ≤ s.historyIndex ∧ s.historyIndex < (s.history.length : Int) ∧
    s.essay = s.history.getD s.historyIndex.toNat []

/-- `pre`/`post` decompose `s` around the first occurrence of `t`: `s` is
`pre ++ t ++ post` and no occurrence of `t` starts earlier than `pre.length`. -/
def IsFirstOccurrenceSplit (t s pre post : List Char) : Prop :=
  s = pre ++ t ++ post ∧
    ∀ pre2 post2 : List Char, s = pre2 ++ t ++ post2 → pre.length ≤ pre2.length

/-- A session state in which the user has typed document `t` as the first
edit (the state `runOps [HistOp.set t] initialState` reaches). -/
def docState (t : List Char) : State :=
  { initialState with essay := t, history := [t], historyIndex := 0 }

/-- A minimal concrete analysis result, used to instantiate hypotheses about
an installed result. -/
def sampleFeedback : FeedbackData where
  band_score := 6
  prioritized_suggestions := []
  enrichment := none
  feedback :=
    { task_achievement := ⟨[], []⟩
      coherence_cohesion := ⟨[], []⟩
      lexical_resource := ⟨[], []⟩
      grammatical_range_accuracy := ⟨[], []⟩ }
  corrections := []
  general_comment := []

/-- A session state holding an installed analysis result. -/
def stWithResult : State := { docState (strL "x") with result := some sampleFeedback }

/-- A session state with the last-changed highlight record set while the
history cursor is at position 0. -/
def stHighlightAtZero : State :=
  { docState (strL "a") with lastModifiedText := some (strL "x") }

/-- A session state with a two-snapshot history and the last-changed
highlight set. -/
def stTwoWithHighlight : State :=
  { updateEssay (strL "b") none (docState (strL "a")) with
      lastModifiedText := some (strL "b") }

/-! ### Lemmas about the scanning primitives -/

theorem leadsWith_iff {t s : List Char} : leadsWith t s = true ↔ ∃ u, s = t ++ u := by
  induction t generalizing s with
  | nil => simp [leadsWith]
  | cons a t ih =>
    cases s with
    | nil => simp [leadsWith]
    | cons b s =>
      simp only [leadsWith, Bool.and_eq_true, decide_eq_true_eq, ih]
      constructor
      · rintro ⟨rfl, u, rfl⟩
        exact ⟨u, rfl⟩
      · rintro ⟨u, hu⟩
        injection hu with h1 h2
        exact ⟨h1.symm, u, h2⟩

theorem findSplit_eq {t : List Char} :
    ∀ {s pre post : List Char}, findSplit t s = some (pre, post) → s = pre ++ t ++ post := by
  intro s
  induction s with
  | nil =>
    intro pre post h
    rw [findSplit] at h
    split at h
    · rename_i hl
      obtain ⟨u, hu⟩ := leadsWith_iff.mp hl
      obtain ⟨ht, -⟩ := List.append_eq_nil.mp hu.symm
      injection h with h
      injection h with h1 h2
      subst ht
      simp [← h1, ← h2]
    · exact absurd h (by simp)
  | cons c rest ih =>
    intro pre post h
    rw [findSplit] at h
    split at h
    · rename_i hl
      obtain ⟨u, hu⟩ := leadsWith_iff.mp hl
      injection h with h
      injection h with h1 h2
      subst h1
      rw [hu, List.drop_left] at h2
      simp [hu, h2]
    · rename_i hl
      revert h
      cases hf : findSplit t rest with
      | none => intro h; exact absurd h (by simp)
      | some pr =>
        intro h
        obtain ⟨p, q⟩ := pr
        injection h with h
        injection h with h1 h2
        subst h1 h2
        have := ih hf
        simp [this]

theorem findSplit_min {t : List Char} :
    ∀ {s pre post : List Char}, findSplit t s = some (pre, post) →
      ∀ pre2 post2 : List Char, s = pre2 ++ t ++ post2 → pre.length ≤ pre2.length := by
  intro s
  induction s with
  | nil =>
    intro pre post h pre2 post2 _
    rw [findSplit] at h
    split at h
    · injection h with h
      injection h with h1 _
      simp [← h1]
    · exact absurd h (by simp)
  | cons c rest ih =>
    intro pre post h pre2 post2 hs
    rw [findSplit] at h
    split at h
    · injection h with h
      injection h with h1 _
      simp [← h1]
    · rename_i hl
      revert h
      cases hf : findSplit t rest with
      | none => intro h; exact absurd h (by simp)
      | some pr =>
        intro h
        obtain ⟨p, q⟩ := pr
        injection h with h
        injection h with h1 h2
        subst h1
        cases pre2 with
        | nil =>
          exfalso
          apply hl
          exact leadsWith_iff.mpr ⟨post2, by simpa using hs⟩
        | cons c2 pre2 =>
          injection hs with _ hs2
          simpa using Nat.succ_le_succ (ih hf pre2 post2 hs2)

theorem findSplit_isSome {t : List Char} :
    ∀ {pre : List Char} (post s : List Char), s = pre ++ t ++ post →
      (findSplit t s).isSome = true := by
  intro pre
  induction pre with
  | nil =>
    intro post s hs
    cases s with
    | nil =>
      have : t = [] := by cases t <;> simp_all
      simp [findSplit, leadsWith_iff, this]
    | cons c rest =>
      rw [findSplit]
      rw [if_pos (leadsWith_iff.mpr ⟨post, by simpa using hs⟩)]
      rfl
  | cons a pre ih =>
    intro post s hs
    cases s with
    | nil => simp at hs
    | cons c rest =>
      injection hs with h1 h2
      rw [findSplit]
      split
      · rfl
      · have := ih post rest h2
        revert this
        cases findSplit t rest with
        | none => simp
        | some pr => intro; rfl

/-- JS `includes` agrees with the substring relation. -/
theorem jsIncludes_iff {s t : List Char} :
    jsIncludes s t = true ↔ ∃ pre post, s = pre ++ t ++ post := by
  unfold jsIncludes
  constructor
  · intro h
    cases hf : findSplit t s with
    | none => rw [hf] at h; simp at h
    | some pr => exact ⟨pr.1, pr.2, findSplit_eq (by simpa using hf)⟩
  · rintro ⟨pre, post, hs⟩
    exact findSplit_isSome post s hs

/-- A replacement text without a dollar character is substituted literally. -/
theorem getSubstitution_no_dollar {m b a : List Char} :
    ∀ {r : List Char}, dollarChar ∉ r → getSubstitution m b a r = r := by
  intro r
  induction r with
  | nil => intro _; rfl
  | cons c rest ih =>
    intro h
    have hc : ¬ c = dollarChar := fun hc => h (by simp [hc])
    have hrest : dollarChar ∉ rest := fun hr => h (List.mem_cons_of_mem _ hr)
    rw [getSubstitution.eq_def]
    simp [hc, ih hrest]

/-- `replace` is the identity when the target does not occur. -/
theorem jsReplace_not_found {target repl s : List Char}
    (h : jsIncludes s target = false) : jsReplace target repl s = s := by
  unfold jsIncludes at h
  unfold jsReplace
  cases hf : findSplit target s with
  | none => rfl
  | some pr => rw [hf] at h; simp at h

/-! ### Split/join lemmas -/

theorem splitNE_ne_nil (sep s : List Char) : splitNE sep s ≠ [] := by
  rw [splitNE.eq_def]
  split
  · simp
  · split
    · simp
    · split
      · simp
      · split <;> simp

theorem joinParts_cons_cons (sep p q : List Char) (ps : List (List Char)) :
    joinParts sep (p :: q :: ps) = p ++ sep ++ joinParts sep (q :: ps) := rfl

theorem joinParts_cons_head (sep : List Char) (c : Char) (p : List Char)
    (ps : List (List Char)) :
    joinParts sep ((c :: p) :: ps) = c :: joinParts sep (p :: ps) := by
  cases ps <;> simp [joinParts]

theorem joinParts_splitNE (sep : List Char) (hsep : sep.isEmpty = false) :
    ∀ s : List Char, joinParts sep (splitNE sep s) = s := by
  have hsl : sep.length ≠ 0 := by
    cases sep with
    | nil => simp at hsep
    | cons a t => simp
  have H : ∀ n : Nat, ∀ s : List Char, s.length ≤ n →
      joinParts sep (splitNE sep s) = s := by
    intro n
    induction n with
    | zero =>
      intro s hs
      have hnil : s = [] := List.length_eq_zero.mp (Nat.le_zero.mp hs)
      subst hnil
      rw [splitNE.eq_def, dif_neg (by simp [hsep])]
      rfl
    | succ n ih =>
      intro s hs
      cases s with
      | nil =>
        rw [splitNE.eq_def, dif_neg (by simp [hsep])]
        rfl
      | cons c rest =>
        rw [splitNE.eq_def, dif_neg (by simp [hsep])]
        show joinParts sep
          (if leadsWith sep (c :: rest) then
            [] :: splitNE sep ((c :: rest).drop sep.length)
          else
            match splitNE sep rest with
            | [] => [[c]]
            | p :: ps => (c :: p) :: ps) = c :: rest
        split
        · rename_i hl
          obtain ⟨u, hu⟩ := leadsWith_iff.mp hl
          have hu_len : u.length ≤ n := by
            have hlen := congrArg List.length hu
            simp only [List.length_append, List.length_cons] at hlen
            have hs' := hs
            simp only [List.length_cons] at hs'
            omega
          rw [hu, List.drop_left]
          cases hsp : splitNE sep u with
          | nil => exact absurd hsp (splitNE_ne_nil sep u)
          | cons q qs =>
            rw [joinParts_cons_cons, ← hsp, ih u hu_len]
            simp
        · cases hsp : splitNE sep rest with
          | nil => exact absurd hsp (splitNE_ne_nil sep rest)
          | cons p ps =>
            show joinParts sep ((c :: p) :: ps) = c :: rest
            rw [joinParts_cons_head, ← hsp,
              ih rest (Nat.le_of_succ_le_succ (by simpa using hs))]
  intro s
  exact H s.length s (Nat.le_refl _)

theorem joinParts_nil_map (s : List Char) :
    joinParts [] (s.map fun c => [c]) = s := by
  induction s with
  | nil => rfl
  | cons c rest ih =>
    cases rest with
    | nil => rfl
    | cons d rest2 =>
      simp only [List.map_cons] at ih ⊢
      rw [joinParts_cons_cons, ih]
      simp

theorem joinParts_jsSplit (sep s : List Char) :
    joinParts sep (jsSplit sep s) = s := by
  unfold jsSplit
  cases hsep : sep.isEmpty with
  | true =>
    have hnil : sep = [] := by cases sep <;> simp_all
    subst hnil
    simpa using joinParts_nil_map s
  | false =>
    simp only [hsep, Bool.false_eq_true, if_false]
    exact joinParts_splitNE sep hsep s

/-! ### Run-concatenation lemmas for the Annotator -/

theorem runsText_append (a b : List Run) :
    runsText (a ++ b) = runsText a ++ runsText b := by
  induction a with
  | nil => rfl
  | cons r rs ih => simp [runsText, ih]

theorem runsText_interleave (hl : Run) (parts : List (List Char)) :
    runsText (interleave hl parts) = joinParts (runText hl) parts := by
  induction parts with
  | nil => rfl
  | cons p ps ih =>
    cases ps with
    | nil => simp [interleave, runsText, joinParts, runText]
    | cons q qs =>
      show runsText (Run.plain p :: hl :: interleave hl (q :: qs)) = _
      rw [joinParts_cons_cons]
      simp [runsText, runText, ih]

theorem runsText_flatMapRuns (f : Run → List Run)
    (hf : ∀ seg, runsText (f seg) = runText seg) :
    ∀ segs, runsText (flatMapRuns f segs) = runsText segs := by
  intro segs
  induction segs with
  | nil => rfl
  | cons seg rest ih => simp [flatMapRuns, runsText, runsText_append, hf, ih]

theorem runsText_annotateCorr (c : Correction) (segs : List Run) :
    runsText (annotateCorr c segs) = runsText segs := by
  unfold annotateCorr
  apply runsText_flatMapRuns
  intro seg
  cases seg with
  | plain s =>
    simp only [runText]
    split
    · rw [runsText_interleave]
      exact joinParts_jsSplit c.original s
    · simp [runsText, runText]
  | corrHighlight t cc => simp [runsText, runText]
  | changedHighlight t => simp [runsText, runText]

theorem runsText_annotateChanged (t : List Char) (segs : List Run) :
    runsText (annotateChanged t segs) = runsText segs := by
  unfold annotateChanged
  apply runsText_flatMapRuns
  intro seg
  cases seg with
  | plain s =>
    simp only [runText]
    split
    · rw [runsText_interleave]
      exact joinParts_jsSplit t s
    · simp [runsText, runText]
  | corrHighlight u cc => simp [runsText, runText]
  | changedHighlight u => simp [runsText, runText]

theorem runsText_foldl_annotateCorr (cs : List Correction) :
    ∀ segs, runsText (cs.foldl (fun acc c => annotateCorr c acc) segs) = runsText segs := by
  induction cs with
  | nil => intro segs; rfl
  | cons c cs ih => intro segs; rw [List.foldl_cons, ih, runsText_annotateCorr]

/-! ### Document-store (history) lemmas -/

theorem updateEssay_cursor_last (t : List Char) (r : Option (List Char)) (s : State) :
    (updateEssay t r s).historyIndex = ((updateEssay t r s).history.length : Int) - 1 := rfl

theorem handleUndo_at_zero (s : State) (h : s.historyIndex = 0) : handleUndo s = s := by
  unfold handleUndo
  rw [if_neg (by omega)]

theorem handleRedo_at_last (s : State)
    (h : s.historyIndex = (s.history.length : Int) - 1) : handleRedo s = s := by
  unfold handleRedo
  rw [if_neg (by omega)]

theorem histInv_updateEssay (t : List Char) (r : Option (List Char)) (s : State) :
    HistInv (updateEssay t r s) := by
  show HistInv
    { s with
      essay := t
      history := jsSliceTo s.history (s.historyIndex + 1) ++ [t]
      historyIndex := ((jsSliceTo s.history (s.historyIndex + 1) ++ [t]).length : Int) - 1
      lastModifiedText := if truthyStr r then r else s.lastModifiedText }
  generalize jsSliceTo s.history (s.historyIndex + 1) = A
  unfold HistInv
  simp only [List.length_append, List.length_cons, List.length_nil]
  refine ⟨by omega, by omega, ?_⟩
  have hidx : (((A.length + (0 + 1) : Nat) : Int) - 1).toNat = A.length := by omega
  simp only [hidx]
  rw [List.getD_append_right A [t] [] A.length (Nat.le_refl _)]
  simp

theorem histInv_handleUndo {s : State} (h : HistInv s) : HistInv (handleUndo s) := by
  obtain ⟨h1, h2, h3⟩ := h
  unfold handleUndo
  split
  · rename_i hgt
    exact ⟨by dsimp only; omega, by dsimp only; omega, rfl⟩
  · exact ⟨h1, h2, h3⟩

theorem histInv_handleRedo {s : State} (h : HistInv s) : HistInv (handleRedo s) := by
  obtain ⟨h1, h2, h3⟩ := h
  unfold handleRedo
  split
  · rename_i hlt
    exact ⟨by dsimp only; omega, by dsimp only; omega, rfl⟩
  · exact ⟨h1, h2, h3⟩

theorem histInv_runOp (op : HistOp) {s : State} (h : HistInv s) : HistInv (runOp op s) := by
  cases op with
  | set t => exact histInv_updateEssay t none s
  | undo => exact histInv_handleUndo h
  | redo => exact histInv_handleRedo h

theorem histInv_runOps (ops : List HistOp) {s : State} (h : HistInv s) :
    HistInv (runOps ops s) := by
  induction ops generalizing s with
  | nil => exact h
  | cons op rest ih => exact ih (histInv_runOp op h)

theorem runOps_append (a b : List HistOp) (s : State) :
    runOps (a ++ b) s = runOps b (runOps a s) := by
  simp [runOps, List.foldl_append]

/-- Projections of `applyFix` that do not depend on the shift key or on the
open-modal branch: the new essay, and the history-push performed by the
embedded `updateEssay` call. -/
theorem applyFix_fields (original replacement : List Char) (sh : Bool) (s : State) :
    (applyFix original replacement sh s).essay = jsReplace original replacement s.essay ∧
    (applyFix original replacement sh s).history =
      jsSliceTo s.history (s.historyIndex + 1) ++ [jsReplace original replacement s.essay] ∧
    (applyFix original replacement sh s).historyIndex =
      ((jsSliceTo s.history (s.historyIndex + 1) ++
        [jsReplace original replacement s.essay]).length : Int) - 1 := by
  unfold applyFix updateEssay
  dsimp only
  split_ifs <;> exact ⟨rfl, rfl, rfl⟩

/-! ### Claim theorems -/

/-- Counterexample to claim C1: with document "abc" (history ["abc"], cursor
0) and the absent target "zzz", `applyFix` is not a no-op on the history: it
pushes a duplicate snapshot and moves the cursor, so the history sequence and
the cursor are both changed, contrary to the claim. -/
theorem claim_C1_counterexample :
    jsIncludes (docState (strL "abc")).essay (strL "zzz") = false ∧
    (applyFix (strL "zzz") (strL "x") false (docState (strL "abc"))).history ≠
      (docState (strL "abc")).history ∧
    (applyFix (strL "zzz") (strL "x") false (docState (strL "abc"))).historyIndex ≠
      (docState (strL "abc")).historyIndex := by decide

/-- Claim C1 as amended: when the target is not a substring of the current
document, `applyFix` leaves the document text unchanged and raises no error
(it is total), but it is not a complete no-op: the history is truncated at
the cursor and a duplicate of the current text is appended, and the cursor
moves to that new last entry. -/
theorem claim_C1_missing_target_apply (st : State) (target repl : List Char) (sh : Bool)
    (h : jsIncludes st.essay target = false) :
    (applyFix target repl sh st).essay = st.essay ∧
    (applyFix target repl sh st).history =
      jsSliceTo st.history (st.historyIndex + 1) ++ [st.essay] ∧
    (applyFix target repl sh st).historyIndex =
      ((jsSliceTo st.history (st.historyIndex + 1) ++ [st.essay]).length : Int) - 1 := by
  have hrep : jsReplace target repl st.essay = st.essay := jsReplace_not_found h
  obtain ⟨h1, h2, h3⟩ := applyFix_fields target repl sh st
  rw [hrep] at h1 h2 h3
  exact ⟨h1, h2, h3⟩

/-- Witness for the amended claim C1 at target "zzz" over document "abc". -/
theorem claim_C1_witness :
    (applyFix (strL "zzz") (strL "x") true (docState (strL "abc"))).essay =
      (docState (strL "abc")).essay ∧
    (applyFix (strL "zzz") (strL "x") true (docState (strL "abc"))).history =
      jsSliceTo (docState (strL "abc")).history ((docState (strL "abc")).historyIndex + 1) ++
        [(docState (strL "abc")).essay] ∧
    (applyFix (strL "zzz") (strL "x") true (docState (strL "abc"))).historyIndex =
      ((jsSliceTo (docState (strL "abc")).history
          ((docState (strL "abc")).historyIndex + 1) ++
        [(docState (strL "abc")).essay]).length : Int) - 1 :=
  claim_C1_missing_target_apply (docState (strL "abc")) (strL "zzz") (strL "x") true
    (by decide)

/-- Counterexample to claim C2: `handleAnalyze` clears the result before the
request is issued, so after a failed request the previously installed
analysis result is gone rather than "still installed unchanged". -/
theorem claim_C2_counterexample :
    stWithResult.result = some sampleFeedback ∧
    (handleAnalyze FetchOutcome.failure stWithResult).result ≠ stWithResult.result := by
  decide

/-- Claim C2 as amended: when an analysis request launched from a state with
an installed prior result fails, the loading flag is cleared and no new
result is installed, but the prior result does not remain: it was discarded
when the request started, so the result is `none`, and the generic error
message is set. -/
theorem claim_C2_failure_discards_result (st : State) (d : FeedbackData)
    (hprev : st.result = some d) (hne : (jsTrim st.essay).isEmpty = false) :
    (handleAnalyze FetchOutcome.failure st).loading = false ∧
    (handleAnalyze FetchOutcome.failure st).result = none ∧
    (handleAnalyze FetchOutcome.failure st).error = errGeneric := by
  unfold handleAnalyze
  rw [if_neg (by simp [hne])]
  exact ⟨rfl, rfl, rfl⟩

/-- Witness for the amended claim C2 on a state holding a sample result. -/
theorem claim_C2_witness :
    (handleAnalyze FetchOutcome.failure stWithResult).loading = false ∧
    (handleAnalyze FetchOutcome.failure stWithResult).result = none ∧
    (handleAnalyze FetchOutcome.failure stWithResult).error = errGeneric :=
  claim_C2_failure_discards_result stWithResult sampleFeedback (by decide) (by decide)

/-- Claim C3: for every document text, every analysis result (hence every
ordered list of corrections) and every optional last-changed span,
concatenating in order the texts of all runs produced by the Annotator —
plain runs, correction-highlight runs and changed-highlight runs — yields
exactly the current document text. -/
theorem claim_C3_annotator_partition (essay : List Char) (result : Option FeedbackData)
    (lastModifiedText : Option (List Char)) :
    runsText (renderAnnotatedEssay essay result lastModifiedText) = essay := by
  unfold renderAnnotatedEssay
  cases result with
  | none => simp [runsText, runText]
  | some r =>
    dsimp only
    split
    · rw [runsText_annotateChanged, runsText_foldl_annotateCorr]
      simp [runsText, runText]
    · rw [runsText_foldl_annotateCorr]
      simp [runsText, runText]

/-- Counterexample to claim C4: the replacement is not inserted literally;
JS `String.replace` expands dollar patterns, so replacing "x" by the
replacement string of two dollar-ampersand pairs in document "x" yields "xx",
not the replacement string itself. -/
theorem claim_C4_counterexample :
    (applyFix (strL "x") (strL "$&$&") false (docState (strL "x"))).essay = strL "xx" ∧
    (applyFix (strL "x") (strL "$&$&") false (docState (strL "x"))).essay ≠
      strL "$&$&" := by decide

/-- Claim C4 as amended: when the target occurs in the document and the
replacement contains no dollar character, `applyFix` replaces exactly the
first occurrence of the target by the literal replacement: the match
position found is the leftmost one, and the document becomes prefix ++
replacement ++ suffix.  (With a dollar character the replacement undergoes
the JS GetSubstitution expansion.) -/
theorem claim_C4_first_occurrence_replace (st : State) (target repl : List Char)
    (sh : Bool) (pre post : List Char)
    (hf : findSplit target st.essay = some (pre, post))
    (hd : dollarChar ∉ repl) :
    IsFirstOccurrenceSplit target st.essay pre post ∧
    (applyFix target repl sh st).essay = pre ++ repl ++ post := by
  refine ⟨⟨findSplit_eq hf, fun pre2 post2 hdec => findSplit_min hf pre2 post2 hdec⟩, ?_⟩
  have hrep : jsReplace target repl st.essay = pre ++ repl ++ post := by
    unfold jsReplace
    rw [hf]
    show pre ++ getSubstitution target pre post repl ++ post = pre ++ repl ++ post
    rw [getSubstitution_no_dollar hd]
  rw [(applyFix_fields target repl sh st).1, hrep]

/-- Witness for the amended claim C4: in document "bad bad", applying
target "bad" with replacement "good" rewrites the first occurrence only,
giving "good bad". -/
theorem claim_C4_witness :
    IsFirstOccurrenceSplit (strL "bad") (docState (strL "bad bad")).essay [] (strL " bad") ∧
    (applyFix (strL "bad") (strL "good") false (docState (strL "bad bad"))).essay =
      [] ++ strL "good" ++ strL " bad" :=
  claim_C4_first_occurrence_replace (docState (strL "bad bad")) (strL "bad") (strL "good")
    false [] (strL " bad") (by decide) (by decide)

/-- Counterexample to claim C5: for document "a" and the actionable
suggestion target "a" with replacement "aa", the replacement reintroduces
the target, so the second apply changes the document again ("aa" becomes
"aaa"), and after the first apply the tracker does not report resolved. -/
theorem claim_C5_counterexample :
    (applyFix (strL "a") (strL "aa") false
        (applyFix (strL "a") (strL "aa") false (docState (strL "a")))).essay ≠
      (applyFix (strL "a") (strL "aa") false (docState (strL "a"))).essay ∧
    classify (applyFix (strL "a") (strL "aa") false (docState (strL "a"))).essay
      (some (strL "a")) (some (strL "aa")) ≠ Applicability.resolved := by decide

/-- Claim C5 as amended: for an actionable suggestion with non-empty target,
if after the first apply the target no longer occurs in the document, the
second apply leaves the document unchanged and the Applicability Tracker
reports the suggestion resolved after the first apply. -/
theorem claim_C5_apply_idempotent_when_target_gone (st : State) (target repl : List Char)
    (sh1 sh2 : Bool) (hne : target ≠ [])
    (hres : jsIncludes (applyFix target repl sh1 st).essay target = false) :
    (applyFix target repl sh2 (applyFix target repl sh1 st)).essay =
      (applyFix target repl sh1 st).essay ∧
    classify (applyFix target repl sh1 st).essay (some target) (some repl) =
      Applicability.resolved := by
  constructor
  · rw [(applyFix_fields target repl sh2 (applyFix target repl sh1 st)).1,
      jsReplace_not_found hres]
  · have hemp : target.isEmpty = false := by cases target <;> simp_all
    simp [classify, isAppliedB, hemp, hres]

/-- Witness for the amended claim C5 on document "I has a dog" with the
correction "has" to "have". -/
theorem claim_C5_witness :
    (applyFix (strL "has") (strL "have") false
        (applyFix (strL "has") (strL "have") false (docState (strL "I has a dog")))).essay =
      (applyFix (strL "has") (strL "have") false (docState (strL "I has a dog"))).essay ∧
    classify (applyFix (strL "has") (strL "have") false
        (docState (strL "I has a dog"))).essay
      (some (strL "has")) (some (strL "have")) = Applicability.resolved :=
  claim_C5_apply_idempotent_when_target_gone (docState (strL "I has a dog"))
    (strL "has") (strL "have") false false (by decide) (by decide)

/-- Counterexample to claim C6: after the prefix consisting of a single undo
from the session-start state, the cursor is −1, which is not a valid index
into the (empty) history sequence, so the invariant claimed for every prefix
fails on prefixes before the first setText. -/
theorem claim_C6_counterexample :
    ¬ (0 ≤ (runOps [HistOp.undo] initialState).historyIndex ∧
        (runOps [HistOp.undo] initialState).historyIndex <
          ((runOps [HistOp.undo] initialState).history.length : Int)) := by decide

/-- Claim C6 as amended: after every prefix of a setText/undo/redo sequence
that contains at least one setText, the cursor is a valid index into the
history and the current text is the snapshot at the cursor; moreover undo
with the cursor at index 0 is a no-op and redo with the cursor at the last
index is a no-op.  (Before the first setText the history is empty and the
cursor is −1.) -/
theorem claim_C6_history_consistency :
    (∀ (a : List HistOp) (t : List Char) (b : List HistOp),
      HistInv (runOps (a ++ HistOp.set t :: b) initialState)) ∧
    (∀ s : State, s.historyIndex = 0 → handleUndo s = s) ∧
    (∀ s : State, s.historyIndex = (s.history.length : Int) - 1 → handleRedo s = s) := by
  refine ⟨?_, handleUndo_at_zero, handleRedo_at_last⟩
  intro a t b
  have hsplit : a ++ HistOp.set t :: b = (a ++ [HistOp.set t]) ++ b := by simp
  rw [hsplit, runOps_append, runOps_append]
  exact histInv_runOps b (histInv_updateEssay t none (runOps a initialState))

/-- Witness for the amended claim C6 on the one-edit session. -/
theorem claim_C6_witness :
    HistInv (runOps ([] ++ HistOp.set (strL "a") :: []) initialState) ∧
    handleUndo (docState (strL "a")) = docState (strL "a") ∧
    handleRedo (docState (strL "a")) = docState (strL "a") :=
  ⟨claim_C6_history_consistency.1 [] (strL "a") [],
    claim_C6_history_consistency.2.1 (docState (strL "a")) (by decide),
    claim_C6_history_consistency.2.2 (docState (strL "a")) (by decide)⟩

/-- Claim C7: from any state with cursor strictly greater than 0, undo
followed by a new setText leaves the cursor at the last index of the
history, makes a subsequent redo a no-op, and truncates away every snapshot
at or after the pre-setText cursor: the new history is the old history up to
(excluding) the old cursor position plus the new snapshot. -/
theorem claim_C7_branch_truncation (st : State) (x : List Char)
    (h : 0 < st.historyIndex) :
    (updateEssay x none (handleUndo st)).historyIndex =
      ((updateEssay x none (handleUndo st)).history.length : Int) - 1 ∧
    handleRedo (updateEssay x none (handleUndo st)) =
      updateEssay x none (handleUndo st) ∧
    (updateEssay x none (handleUndo st)).history =
      st.history.take st.historyIndex.toNat ++ [x] := by
  refine ⟨updateEssay_cursor_last x none (handleUndo st),
    handleRedo_at_last _ (updateEssay_cursor_last x none (handleUndo st)), ?_⟩
  unfold handleUndo
  rw [if_pos h]
  unfold updateEssay
  dsimp only
  congr 1
  unfold jsSliceTo
  rw [if_neg (by omega)]
  congr 1
  omega

/-- Witness for claim C7 on the two-snapshot history ["a", "b"]. -/
theorem claim_C7_witness :
    (updateEssay (strL "c") none
        (handleUndo (updateEssay (strL "b") none (docState (strL "a"))))).historyIndex =
      ((updateEssay (strL "c") none
          (handleUndo (updateEssay (strL "b") none (docState (strL "a"))))).history.length :
        Int) - 1 ∧
    handleRedo (updateEssay (strL "c") none
        (handleUndo (updateEssay (strL "b") none (docState (strL "a"))))) =
      updateEssay (strL "c") none
        (handleUndo (updateEssay (strL "b") none (docState (strL "a")))) ∧
    (updateEssay (strL "c") none
        (handleUndo (updateEssay (strL "b") none (docState (strL "a"))))).history =
      (updateEssay (strL "b") none (docState (strL "a"))).history.take
        (updateEssay (strL "b") none (docState (strL "a"))).historyIndex.toNat ++
        [strL "c"] :=
  claim_C7_branch_truncation (updateEssay (strL "b") none (docState (strL "a")))
    (strL "c") (by decide)

/-- Counterexample to claim C8: in a state with the last-changed highlight
record set and the cursor at 0, undo neither moves the cursor back nor
clears the highlight record (it never touches the record at all). -/
theorem claim_C8_counterexample :
    stHighlightAtZero.lastModifiedText ≠ none ∧
    (handleUndo stHighlightAtZero).historyIndex ≠ stHighlightAtZero.historyIndex - 1 ∧
    (handleUndo stHighlightAtZero).lastModifiedText ≠ none := by decide

/-- Claim C8 as amended: in a state with the last-changed highlight record
set and the cursor past 0, undo moves the cursor back one position and makes
the current text that snapshot's text, and it leaves the highlight record
unchanged — it does not clear it. -/
theorem claim_C8_undo_keeps_highlight (st : State) (h0 : st.lastModifiedText ≠ none)
    (h1 : 0 < st.historyIndex) :
    (handleUndo st).historyIndex = st.historyIndex - 1 ∧
    (handleUndo st).essay = st.history.getD (st.historyIndex - 1).toNat [] ∧
    (handleUndo st).lastModifiedText = st.lastModifiedText := by
  unfold handleUndo
  rw [if_pos h1]
  exact ⟨rfl, rfl, rfl⟩

/-- Witness for the amended claim C8 on a two-snapshot history with the
highlight record set. -/
theorem claim_C8_witness :
    (handleUndo stTwoWithHighlight).historyIndex = stTwoWithHighlight.historyIndex - 1 ∧
    (handleUndo stTwoWithHighlight).essay =
      stTwoWithHighlight.history.getD (stTwoWithHighlight.historyIndex - 1).toNat [] ∧
    (handleUndo stTwoWithHighlight).lastModifiedText =
      stTwoWithHighlight.lastModifiedText :=
  claim_C8_undo_keeps_highlight stTwoWithHighlight (by decide) (by decide)

/-- Claim C9: a suggestion whose target span is the empty string is
classified informational for every document content: its `isApplied` flag is
never true (never resolved), the apply action is never offered (never open),
and the derived classification is `informational`. -/
theorem claim_C9_empty_target_informational (essay : List Char)
    (repl : Option (List Char)) :
    classify essay (some []) repl = Applicability.informational ∧
    isAppliedB essay (some []) = false ∧
    applyOffered (some []) repl = false :=
  ⟨rfl, rfl, rfl⟩

/-- Claim C10: the initial document text is never recorded as a history
snapshot: at session start (after the mount effect) the history is empty and
the cursor is −1; the first setText makes the history exactly the one new
snapshot with cursor 0; and undo immediately after the first edit is a
no-op, so the pre-edit text cannot be restored via undo. -/
theorem claim_C10_initial_not_snapshotted :
    (initHistoryEffect initialState).history = [] ∧
    (initHistoryEffect initialState).historyIndex = -1 ∧
    ∀ (t : List Char) (r : Option (List Char)),
      (updateEssay t r (initHistoryEffect initialState)).history = [t] ∧
      (updateEssay t r (initHistoryEffect initialState)).historyIndex = 0 ∧
      handleUndo (updateEssay t r (initHistoryEffect initialState)) =
        updateEssay t r (initHistoryEffect initialState) := by
  refine ⟨rfl, rfl, fun t r => ⟨rfl, rfl, ?_⟩⟩
  exact handleUndo_at_zero _ rfl

end IWH
